import Mathlib

/-!
Verification development for the go-gitcfg repository: a shallow embedding of
its Git-style INI configuration parser, merge engine, typed accessors and
reload logic, together with theorems settling the specification claims.

Strings are modelled as `List Char`.  Go's `unicode.IsLetter`, `unicode.IsDigit`,
`unicode.IsSpace` and `strings.ToLower` are modelled on their ASCII fragments
(every input appearing in the repository's claims and tests is ASCII).
-/

deriving instance DecidableEq for Except

namespace GitCfg

/-- Strings as lists of characters. -/
abbrev Str := List Char

/-- Convert a Lean string literal into the character-list representation. -/
def strL (s : String) : Str := s.data

/-- ASCII fragment of Go's `unicode.IsSpace`, as used by `strings.TrimSpace`
(includes vertical tab and form feed). -/
def isSpace (c : Char) : Bool :=
  c == ' ' || c == '\t' || c == '\n' || c == '\r' || c == '\x0b' || c == '\x0c'

/-- Go regexp's Perl whitespace class `\s` = `[\t\n\f\r ]`; unlike
`unicode.IsSpace` it does not include the vertical tab. -/
def isRegexSpace (c : Char) : Bool :=
  c == ' ' || c == '\t' || c == '\n' || c == '\x0c' || c == '\r'

/-- ASCII fragment of Go's `unicode.IsLetter`. -/
def isCfgLetter (c : Char) : Bool :=
  ('a' ≤ c && c ≤ 'z') || ('A' ≤ c && c ≤ 'Z')

/-- ASCII fragment of Go's `unicode.IsDigit`. -/
def isCfgDigit (c : Char) : Bool :=
  '0' ≤ c && c ≤ '9'

/-- ASCII fragment of Go's `strings.ToLower` on one character. -/
def toLowerChar (c : Char) : Char :=
  if 'A' ≤ c && c ≤ 'Z' then Char.ofNat (c.toNat + 32) else c

/-- `strings.ToLower`. -/
def lowerStr (s : Str) : Str := s.map toLowerChar

/-- `strings.TrimSpace`: strip whitespace from both ends. -/
def trimSpace (s : Str) : Str :=
  ((s.dropWhile isSpace).reverse.dropWhile isSpace).reverse

/-- Single-character `strings.Contains`. -/
def containsC (sep : Char) : Str → Bool
  | [] => false
  | c :: cs => c == sep || containsC sep cs

/-- `strings.SplitN(s, sep, 2)`: `none` when `sep` does not occur, otherwise
the parts before and after the first occurrence. -/
def splitFirst (sep : Char) : Str → Option (Str × Str)
  | [] => none
  | c :: cs =>
    if c = sep then some ([], cs)
    else
      match splitFirst sep cs with
      | none => none
      | some (l, r) => some (c :: l, r)

/-- `strings.Split(s, sep)`: full split on every occurrence of `sep`. -/
def splitAll (sep : Char) : Str → List Str
  | [] => [[]]
  | c :: cs =>
    if c = sep then [] :: splitAll sep cs
    else
      match splitAll sep cs with
      | h :: t => (c :: h) :: t
      | [] => [[c]]

/-- `parseConfigKey`: decompose a dotted key into (section, key name).
Splits at the first dot; when the remainder still contains a dot, exactly one
further segment is folded into the section name. -/
def parseConfigKey (key : Str) : Option (Str × Str) :=
  match splitFirst '.' key with
  | none => none
  | some (sec, remaining) =>
    match splitFirst '.' remaining with
    | none => some (sec, remaining)
    | some (sub, rest) => some (sec ++ '.' :: sub, rest)

/-- `isValidKeyName`: non-empty; only letters, digits, hyphen, underscore. -/
def isValidKeyName (n : Str) : Bool :=
  if n = [] then false
  else n.all fun c => isCfgLetter c || isCfgDigit c || c == '-' || c == '_'

/-- `isValidConfigKey`: non-empty, contains a dot, characters restricted to
letters, digits, dot, hyphen, underscore. -/
def isValidConfigKey (key : Str) : Bool :=
  if key = [] || !(containsC '.' key) then false
  else key.all fun c => isCfgLetter c || isCfgDigit c || c == '.' || c == '-' || c == '_'

/-- `isValidSectionName`: either a plain valid key name, or a two-token form
`name "sub"` whose first token is a valid key name and whose second token,
after trimming, is wrapped in double quotes. -/
def isValidSectionName (n : Str) : Bool :=
  if n = [] then false
  else if containsC ' ' n then
    match splitFirst ' ' n with
    | some (p0, p1) =>
      if !(isValidKeyName p0) then false
      else
        let sub := trimSpace p1
        if 2 ≤ sub.length ∧ sub.head? = some '"' ∧ sub.getLast? = some '"'
        then true else false
    | none => false
  else isValidKeyName n

/-- `isValidSubsectionName`: contains a dot and every dot-separated segment is
a valid key name. -/
def isValidSubsectionName (n : Str) : Bool :=
  if n = [] || !(containsC '.' n) then false
  else (splitAll '.' n).all isValidKeyName

/-! ## The store -/

/-- Go map lookup on an association list. -/
def lookupA {α : Type} : List (Str × α) → Str → Option α
  | [], _ => none
  | (k', v) :: rest, k => if k' = k then some v else lookupA rest k

/-- Go map insertion on an association list (overwrite in place or append). -/
def insertA {α : Type} : List (Str × α) → Str → α → List (Str × α)
  | [], k, v => [(k, v)]
  | (k', v') :: rest, k, v =>
    if k' = k then (k, v) :: rest else (k', v') :: insertA rest k v

/-- Source kinds (`ConfigSourceType`). -/
inductive SourceType where
  | system
  | global
  | local
  | worktree
deriving DecidableEq

/-- A configuration source: kind plus path (`ConfigSource`). -/
structure ConfigSource where
  type : SourceType
  path : Str
deriving DecidableEq

/-- The two-level store plus the recorded source list (`Config`). -/
structure Config where
  sections : List (Str × List (Str × Str))
  sources : List ConfigSource
deriving DecidableEq

/-- A freshly allocated empty configuration. -/
def emptyConfig : Config := { sections := [], sources := [] }

/-- Error sentinels of the package plus the distinct failure causes that reach
callers (`ErrKeyNotFound` etc.; `unquoteFailed` stands for the `strconv`
syntax error wrapped by "invalid quoted value", which is not the package's
`ErrInvalidValue` sentinel; `openFailed` for a source that cannot be opened). -/
inductive ErrBase where
  | keyNotFound
  | sectionNotFound
  | invalidKeyFormat
  | invalidValue
  | unquoteFailed
  | openFailed
deriving DecidableEq

/-- A `ConfigError`: operation, offending key, section, provenance
(source path and, when derived from file parsing, a line number), base error. -/
structure CfgError where
  op : Str
  key : Str
  sect : Str
  source : Option Str
  lineNo : Option Nat
  base : ErrBase
deriving DecidableEq

/-- `Config.setRawValue`: validate the composed key, decompose it, validate
section and key names, then overwrite the slot in the two-level store. -/
def setRawValue (c : Config) (key value : Str) : Except ErrBase Config :=
  if !(isValidConfigKey key) then .error .invalidKeyFormat
  else
    match parseConfigKey key with
    | none => .error .invalidKeyFormat
    | some (sec, remaining) =>
      if !(isValidSectionName sec || isValidSubsectionName sec) then
        .error .invalidKeyFormat
      else if !(isValidKeyName remaining) then .error .invalidKeyFormat
      else
        .ok { c with
              sections :=
                insertA c.sections sec
                  (insertA ((lookupA c.sections sec).getD []) remaining value) }

/-- Raw lookup of a dotted key in the store, through `parseConfigKey`. -/
def rawLookup (c : Config) (key : Str) : Option Str :=
  match parseConfigKey key with
  | none => none
  | some (sec, sub) => (lookupA c.sections sec).bind fun m => lookupA m sub

/-! ## The line parser -/

/-- The comment regex of the parser: leading regex whitespace then `#` or
`;`. -/
def isCommentLine (line : Str) : Bool :=
  match line.dropWhile isRegexSpace with
  | c :: _ => c == '#' || c == ';'
  | [] => false

/-- The section-header regex: optional regex whitespace, `[`, a non-empty
run of characters other than `]` (the capture), `]`, trailing regex
whitespace only.  Returns the raw capture. -/
def matchSection (line : Str) : Option Str :=
  match line.dropWhile isRegexSpace with
  | '[' :: rest =>
    match splitFirst ']' rest with
    | some (content, tail) =>
      if content ≠ [] ∧ tail.all isRegexSpace then some content else none
    | none => none
  | _ => none

/-- The key-value regex: optional regex whitespace, a non-empty run of
characters that are neither regex whitespace nor `=` (the key capture),
optional regex whitespace, `=`, then the rest of the line (the raw value
capture before trimming). -/
def matchKeyValue (line : Str) : Option (Str × Str) :=
  let r1 := line.dropWhile isRegexSpace
  let key := r1.takeWhile fun c => !(isRegexSpace c) && !(c == '=')
  if key = [] then none
  else
    match (r1.drop key.length).dropWhile isRegexSpace with
    | '=' :: tail => some (key, tail)
    | _ => none

/-- Hexadecimal digit value, as in `strconv`. -/
def hexD (c : Char) : Option Nat :=
  if '0' ≤ c && c ≤ '9' then some (c.toNat - 48)
  else if 'a' ≤ c && c ≤ 'f' then some (c.toNat - 87)
  else if 'A' ≤ c && c ≤ 'F' then some (c.toNat - 55)
  else none

/-- Octal digit value. -/
def octD (c : Char) : Option Nat :=
  if '0' ≤ c && c ≤ '7' then some (c.toNat - 48) else none

/-- Build a character for a `\u`/`\U` escape: `utf8.ValidRune` check then the
code point (`Nat.isValidChar` coincides with `utf8.ValidRune`). -/
def mkRune (n : Nat) : Except Unit Char :=
  if n.isValidChar then .ok (Char.ofNat n) else .error ()

/-- The body of `strconv.Unquote` between the double quotes: literal
characters, the standard escapes, `\xHH`, `\uHHHH`, `\UHHHHHHHH` and
three-digit octal escapes; an unescaped quote, a newline, `\'` under a
double-quote context, or a malformed escape is a syntax error.  `\x` and
octal escapes denote raw bytes in Go; they are modelled as the code point
with the same value (the repository's inputs contain neither). -/
def unquoteBody : Str → Except Unit Str
  | [] => .ok []
  | '"' :: _ => .error ()
  | '\n' :: _ => .error ()
  | '\\' :: rest =>
    match rest with
    | [] => .error ()
    | 'a' :: t => (unquoteBody t).map fun r => Char.ofNat 7 :: r
    | 'b' :: t => (unquoteBody t).map fun r => Char.ofNat 8 :: r
    | 'f' :: t => (unquoteBody t).map fun r => Char.ofNat 12 :: r
    | 'n' :: t => (unquoteBody t).map fun r => '\n' :: r
    | 'r' :: t => (unquoteBody t).map fun r => '\r' :: r
    | 't' :: t => (unquoteBody t).map fun r => '\t' :: r
    | 'v' :: t => (unquoteBody t).map fun r => Char.ofNat 11 :: r
    | '\\' :: t => (unquoteBody t).map fun r => '\\' :: r
    | '"' :: t => (unquoteBody t).map fun r => '"' :: r
    | '\'' :: _ => .error ()
    | 'x' :: h1 :: h2 :: t =>
      match hexD h1, hexD h2 with
      | some a, some b =>
        (unquoteBody t).map fun r => Char.ofNat (a * 16 + b) :: r
      | _, _ => .error ()
    | 'u' :: h1 :: h2 :: h3 :: h4 :: t =>
      match hexD h1, hexD h2, hexD h3, hexD h4 with
      | some a, some b, some c, some d =>
        match mkRune (((a * 16 + b) * 16 + c) * 16 + d) with
        | .ok ch => (unquoteBody t).map fun r => ch :: r
        | .error e => .error e
      | _, _, _, _ => .error ()
    | 'U' :: h1 :: h2 :: h3 :: h4 :: h5 :: h6 :: h7 :: h8 :: t =>
      match hexD h1, hexD h2, hexD h3, hexD h4, hexD h5, hexD h6, hexD h7, hexD h8 with
      | some a, some b, some c, some d, some e, some f, some g, some h =>
        match mkRune ((((((((a * 16 + b) * 16 + c) * 16 + d) * 16 + e) * 16
            + f) * 16 + g) * 16 + h)) with
        | .ok ch => (unquoteBody t).map fun r => ch :: r
        | .error er => .error er
      | _, _, _, _, _, _, _, _ => .error ()
    | d1 :: d2 :: d3 :: t =>
      match octD d1, octD d2, octD d3 with
      | some a, some b, some c =>
        let v := (a * 8 + b) * 8 + c
        if v ≤ 255 then (unquoteBody t).map fun r => Char.ofNat v :: r
        else .error ()
      | _, _, _ => .error ()
    | _ => .error ()
  | c :: rest => (unquoteBody rest).map fun r => c :: r

/-- `strconv.Unquote` restricted to the double-quoted case: strip a leading
and a trailing double quote, then unescape the body. -/
def unquoteGo (s : Str) : Except Unit Str :=
  match s with
  | '"' :: rest =>
    if rest.getLast? = some '"' then unquoteBody rest.dropLast else .error ()
  | _ => .error ()

/-- `parser.processQuotedValue`: when the value is at least two characters
long and both begins and ends with a double quote, apply `strconv.Unquote`;
otherwise return the value verbatim. -/
def processQuotedValue (value : Str) : Except Unit Str :=
  if 2 ≤ value.length ∧ value.head? = some '"' ∧ value.getLast? = some '"' then
    unquoteGo value
  else .ok value

/-- `parser.buildFullKey`: compose the active section header with a bare key.
A header of the form `name "sub"` contributes `name.sub`. -/
def buildFullKey (sec key : Str) : Str :=
  if sec = [] then key
  else
    match splitFirst ' ' sec with
    | some (p0, p1) =>
      let sub := trimSpace p1
      if 2 ≤ sub.length ∧ sub.head? = some '"' ∧ sub.getLast? = some '"' then
        p0 ++ '.' :: ((sub.drop 1).dropLast ++ '.' :: key)
      else sec ++ '.' :: key
    | none => sec ++ '.' :: key

/-- One iteration of `parser.parseConfigReader`: classify a physical line and
update the store and the active section context. -/
def processLine (c : Config) (cur : Str) (src : Str) (ln : Nat) (line : Str) :
    Except CfgError (Config × Str) :=
  if line = [] ∨ isCommentLine line then .ok (c, cur)
  else
    match matchSection line with
    | some content => .ok (c, trimSpace content)
    | none =>
      match matchKeyValue line with
      | none => .ok (c, cur)
      | some (k, v) =>
        let key := trimSpace k
        let value := trimSpace v
        match processQuotedValue value with
        | .error _ =>
          .error { op := strL "parse", key := key, sect := [],
                   source := some src, lineNo := some ln, base := .unquoteFailed }
        | .ok value' =>
          let fullKey := buildFullKey cur key
          match setRawValue c fullKey value' with
          | .error b =>
            .error { op := strL "parse", key := fullKey, sect := [],
                     source := some src, lineNo := some ln, base := b }
          | .ok c' => .ok (c', cur)

/-- The scanner loop of `parser.parseConfigReader` over the remaining lines,
carrying the active section context and the one-based line number. -/
def parseLinesLoop (src : Str) : List Str → Config → Str → Nat → Except CfgError Config
  | [], c, _, _ => .ok c
  | line :: rest, c, cur, ln =>
    match processLine c cur src (ln + 1) line with
    | .error e => .error e
    | .ok (c', cur') => parseLinesLoop src rest c' cur' (ln + 1)

/-- `parser.parseConfigReader`: parse all lines of one source into the store,
starting with an empty active section. -/
def parseConfigReaderM (lines : List Str) (c : Config) (src : Str) :
    Except CfgError Config :=
  parseLinesLoop src lines c [] 0

/-- The file system consumed by the loader: a path either opens into a list
of physical lines or fails to open. -/
abbrev FS := Str → Option (List Str)

/-- `parser.parseConfigFile`: open the path (failure becomes a parse error
naming the path) then run the reader. -/
def parseConfigFileM (fs : FS) (path : Str) (c : Config) : Except CfgError Config :=
  match fs path with
  | none =>
    .error { op := strL "parse", key := [], sect := [],
             source := some path, lineNo := none, base := .openFailed }
  | some lines => parseConfigReaderM lines c path

/-- Failures of a multi-source load or reload: the context fired at a
per-source check (returned as `ctx.Err()`, carrying no source), or one source
failed, wrapped with that source's path. -/
inductive ReloadErr where
  | ctxCanceled
  | sourceFailed (path : Str) (e : CfgError)
deriving DecidableEq

/-- The source of a `ReloadErr`, when the error names one. -/
def namedSource : ReloadErr → Option Str
  | .ctxCanceled => none
  | .sourceFailed p _ => some p

/-- The per-source loop shared by `parser.parseFromFiles` and
`Config.ReloadWithContext`: check cancellation once per source, parse the
file into the accumulating store, then record the source. -/
def loadLoop (fs : FS) (ctx : Nat → Bool) :
    List ConfigSource → Nat → Config → Except ReloadErr Config
  | [], _, acc => .ok acc
  | s :: rest, i, acc =>
    if ctx i then .error .ctxCanceled
    else
      match parseConfigFileM fs s.path acc with
      | .error e => .error (.sourceFailed s.path e)
      | .ok acc' =>
        loadLoop fs ctx rest (i + 1) { acc' with sources := acc'.sources ++ [s] }

/-- `parser.parseFromFiles`: build a fresh config by replaying the ordered
source list (`ctx i` is whether the context is done at the i-th check). -/
def parseFromFilesM (fs : FS) (ctx : Nat → Bool) (sources : List ConfigSource) :
    Except ReloadErr Config :=
  loadLoop fs ctx sources 0 emptyConfig

/-- `Config.ReloadWithContext` for a config with recorded sources: build a
fresh store from the recorded sources and swap it in only on full success;
any failure leaves the receiver untouched and is returned.  (When no source
is recorded the two copies of the function in the repository differ — one
returns nil, the other falls back to loading the global config — so that
case is modelled as the part_003 variant: no change, no error.) -/
def reloadWithContext (c : Config) (fs : FS) (ctx : Nat → Bool) :
    Config × Option ReloadErr :=
  if c.sources = [] then (c, none)
  else
    match loadLoop fs ctx c.sources 0 emptyConfig with
    | .ok nc => ({ sections := nc.sections, sources := nc.sources }, none)
    | .error e => (c, some e)

/-! ## Typed accessors -/

/-- `parseBool`: Git boolean literals; the empty value is true; otherwise
trim, lower-case and match the literal table. -/
def parseBool (value : Str) : Except Unit Bool :=
  if value = [] then .ok true
  else
    let lower := lowerStr (trimSpace value)
    if lower = strL "true" ∨ lower = strL "yes" ∨ lower = strL "on" ∨
        lower = strL "1" then .ok true
    else if lower = strL "false" ∨ lower = strL "no" ∨ lower = strL "off" ∨
        lower = strL "0" then .ok false
    else .error ()

/-- `convertValue[bool]`: `parseBool` with its failure wrapped in the
`ErrInvalidValue` sentinel. -/
def convertBool (value : Str) : Except ErrBase Bool :=
  match parseBool value with
  | .ok b => .ok b
  | .error _ => .error .invalidValue

/-- Errors of the generic `Get` accessor, mirroring the wrap structure of the
returned `ConfigError`s: the decomposition failure, the two lookup failures
(with section and key recorded), or a conversion failure wrapping the
converter's error. -/
inductive GetErr where
  | invalidKeyFormat
  | sectionNotFound (sect key : Str)
  | keyNotFound (sect key : Str)
  | conversionFailed (e : ErrBase)
deriving DecidableEq

/-- The generic accessor `Get[T]`, parameterized by the conversion of
`convertValue[T]`: decompose the key, look up section then key, convert. -/
def getValue {α : Type} (conv : Str → Except ErrBase α) (c : Config) (key : Str) :
    Except GetErr α :=
  match parseConfigKey key with
  | none => .error .invalidKeyFormat
  | some (sec, sub) =>
    match lookupA c.sections sec with
    | none => .error (.sectionNotFound sec sub)
    | some m =>
      match lookupA m sub with
      | none => .error (.keyNotFound sec sub)
      | some v =>
        match conv v with
        | .error e => .error (.conversionFailed e)
        | .ok a => .ok a

/-- `Get[string]`: the stored value verbatim. -/
def getString (c : Config) (key : Str) : Except GetErr Str :=
  getValue (fun v => .ok v) c key

/-- `Get[bool]`. -/
def getBool (c : Config) (key : Str) : Except GetErr Bool :=
  getValue convertBool c key

/-- `Config.Has`: split at the first dot only (section = first segment,
key = entire remainder) and test membership. -/
def hasKey (c : Config) (key : Str) : Bool :=
  match splitFirst '.' key with
  | none => false
  | some (sec, sub) =>
    match lookupA c.sections sec with
    | none => false
    | some m => (lookupA m sub).isSome

/-! ## Derived notions used by claim statements -/

/-- Replay a list of `setRawValue` writes, aborting on the first failure, as
every caller in the repository does. -/
def applyWritesE (c : Config) : List (Str × Str) → Except ErrBase Config
  | [] => .ok c
  | (k, v) :: rest =>
    match setRawValue c k v with
    | .error e => .error e
    | .ok c' => applyWritesE c' rest

/-- The value of the last write in the list whose composed key decomposes to
the same slot as `k` (none when no write targets that slot). -/
def lastValueFor (writes : List (Str × Str)) (k : Str) : Option Str :=
  writes.foldl
    (fun acc w => if parseConfigKey w.1 = parseConfigKey k then some w.2 else acc)
    none

/-- The store invariant: every section name present passed section-name or
dotted-subsection validation, and every key present passed key-name
validation. -/
def validStore (secs : List (Str × List (Str × Str))) : Prop :=
  ∀ p ∈ secs,
    (isValidSectionName p.1 = true ∨ isValidSubsectionName p.1 = true) ∧
    ∀ q ∈ p.2, isValidKeyName q.1 = true

/-! ## Helper lemmas -/

theorem splitFirst_eq_none_iff (sep : Char) (s : Str) :
    splitFirst sep s = none ↔ containsC sep s = false := by
  induction s with
  | nil => simp [splitFirst, containsC]
  | cons c cs ih =>
    simp only [splitFirst, containsC]
    by_cases h : c = sep
    · simp [h]
    · simp only [if_neg h]
      cases hs : splitFirst sep cs with
      | none => simp [hs] at ih; simp [ih, h]
      | some p => simp [hs] at ih; simp [ih, h]

theorem splitFirst_append (sep : Char) (a b : Str) (h : containsC sep a = false) :
    splitFirst sep (a ++ sep :: b) = some (a, b) := by
  induction a with
  | nil => simp [splitFirst]
  | cons c cs ih =>
    simp only [containsC, Bool.or_eq_false_iff, beq_eq_false_iff_ne, ne_eq] at h
    have hstep : (c :: cs) ++ sep :: b = c :: (cs ++ sep :: b) := rfl
    rw [hstep]
    unfold splitFirst
    rw [if_neg h.1, ih h.2]

theorem lookupA_insertA_self {α : Type} (m : List (Str × α)) (k : Str) (v : α) :
    lookupA (insertA m k v) k = some v := by
  induction m with
  | nil => simp [insertA, lookupA]
  | cons p rest ih =>
    obtain ⟨pk, pv⟩ := p
    by_cases h : pk = k
    · simp [insertA, h, lookupA]
    · simp [insertA, h, lookupA, ih]

theorem lookupA_insertA_ne {α : Type} (m : List (Str × α)) (k k' : Str) (v : α)
    (h : k' ≠ k) : lookupA (insertA m k v) k' = lookupA m k' := by
  induction m with
  | nil =>
    simp only [insertA, lookupA]
    rw [if_neg (Ne.symm h)]
  | cons p rest ih =>
    obtain ⟨pk, pv⟩ := p
    by_cases hp : pk = k
    · subst hp
      simp only [insertA, if_pos rfl, lookupA]
      rw [if_neg (Ne.symm h), if_neg (Ne.symm h)]
    · simp only [insertA, if_neg hp, lookupA]
      by_cases hp' : pk = k' <;> simp [hp', ih]

theorem mem_insertA {α : Type} (m : List (Str × α)) (k : Str) (v : α)
    (p : Str × α) (h : p ∈ insertA m k v) : p ∈ m ∨ p = (k, v) := by
  induction m with
  | nil => simp [insertA] at h; simp [h]
  | cons q rest ih =>
    obtain ⟨qk, qv⟩ := q
    by_cases hq : qk = k
    · simp only [insertA, if_pos hq, List.mem_cons] at h
      rcases h with h | h
      · right; exact h
      · left; exact List.mem_cons_of_mem _ h
    · simp only [insertA, if_neg hq, List.mem_cons] at h
      rcases h with h | h
      · left; simp [h]
      · rcases ih h with h' | h'
        · left; exact List.mem_cons_of_mem _ h'
        · right; exact h'

theorem lookupA_mem {α : Type} (m : List (Str × α)) (k : Str) (v : α)
    (h : lookupA m k = some v) : (k, v) ∈ m := by
  induction m with
  | nil => simp [lookupA] at h
  | cons q rest ih =>
    obtain ⟨qk, qv⟩ := q
    by_cases hq : qk = k
    · simp only [lookupA, if_pos hq, Option.some.injEq] at h
      subst hq; subst h
      exact List.mem_cons_self _ _
    · simp only [lookupA, if_neg hq] at h
      exact List.mem_cons_of_mem _ (ih h)

/-- After a successful `setRawValue` for key `k`, the raw lookup of any key
is the written value when the keys decompose to the same slot, and is
unchanged otherwise. -/
theorem setRawValue_ok_rawLookup (c : Config) (k v : Str) (c' : Config)
    (h : setRawValue c k v = .ok c') (k' : Str) :
    rawLookup c' k' =
      if parseConfigKey k' = parseConfigKey k then some v else rawLookup c k' := by
  unfold setRawValue at h
  split at h
  · cases h
  · split at h
    · cases h
    · rename_i sec remaining hpk
      split at h
      · cases h
      · split at h
        · cases h
        · cases h
          unfold rawLookup
          rw [hpk]
          cases hpk' : parseConfigKey k' with
          | none => simp
          | some p =>
            obtain ⟨sec', sub'⟩ := p
            by_cases hs : sec' = sec
            · subst hs
              by_cases hb : sub' = remaining
              · subst hb
                rw [if_pos rfl]
                simp only [lookupA_insertA_self, Option.some_bind]
              · rw [if_neg (by simp [hb])]
                simp only [lookupA_insertA_self, Option.some_bind]
                rw [lookupA_insertA_ne _ _ _ _ hb]
                cases hm : lookupA c.sections sec' with
                | none => simp [hm, lookupA]
                | some m => simp [hm]
            · rw [if_neg (by simp [hs])]
              simp only [lookupA_insertA_ne _ _ _ _ hs]

/-! ## Claim theorems -/

/-- Claim C3: key decomposition fails exactly when the input contains no
dot; otherwise it splits on the first dot, and when the remainder still
contains a dot exactly one further segment is moved into the section name,
so `remote.origin.url` gives section `remote.origin` and key `url`, while a
key of more than three segments keeps everything after the first extra dot
as the final key name (`a.b.c.d` gives `a.b` / `c.d`). -/
theorem parseConfigKey_decomposition :
    (∀ k : Str, parseConfigKey k = none ↔ containsC '.' k = false)
    ∧ (∀ a b : Str, containsC '.' a = false → containsC '.' b = false →
        parseConfigKey (a ++ '.' :: b) = some (a, b))
    ∧ (∀ a b c : Str, containsC '.' a = false → containsC '.' b = false →
        parseConfigKey (a ++ '.' :: (b ++ '.' :: c)) = some (a ++ '.' :: b, c))
    ∧ parseConfigKey (strL "remote.origin.url") = some (strL "remote.origin", strL "url")
    ∧ parseConfigKey (strL "a.b.c.d") = some (strL "a.b", strL "c.d") := by
  refine ⟨fun k => ?_, fun a b ha hb => ?_, fun a b c ha hb => ?_, by decide, by decide⟩
  · rw [← splitFirst_eq_none_iff]
    unfold parseConfigKey
    cases hs : splitFirst '.' k with
    | none => simp
    | some p =>
      obtain ⟨s, r⟩ := p
      cases hr : splitFirst '.' r <;> simp [hr]
  · unfold parseConfigKey
    simp [splitFirst_append _ _ _ ha,
      show splitFirst '.' b = none from (splitFirst_eq_none_iff '.' b).mpr hb]
  · unfold parseConfigKey
    simp [splitFirst_append _ _ _ ha, splitFirst_append _ _ _ hb]

/-- Witness for C3: decomposing a concrete two-segment key. -/
theorem parseConfigKey_decomposition_witness :
    parseConfigKey (strL "user" ++ '.' :: strL "name") = some (strL "user", strL "name") :=
  parseConfigKey_decomposition.2.1 (strL "user") (strL "name") (by decide) (by decide)

/-- Claim C9: a non-blank line that is not a comment, not a section header
and does not match the key-value pattern produces no error, adds nothing to
the store and leaves the active section context unchanged. -/
theorem unrecognized_line_skipped (c : Config) (cur src : Str) (ln : Nat) (line : Str)
    (hnb : line ≠ []) (hnc : isCommentLine line = false)
    (hns : matchSection line = none) (hnk : matchKeyValue line = none) :
    processLine c cur src ln line = .ok (c, cur) := by
  unfold processLine
  rw [if_neg (by simp [hnb, hnc])]
  simp only [hns, hnk]

/-- Witness for C9: a concrete unrecognized line is skipped. -/
theorem unrecognized_line_skipped_witness :
    processLine emptyConfig [] (strL "t") 1 (strL "justtext") = .ok (emptyConfig, []) :=
  unrecognized_line_skipped emptyConfig [] (strL "t") 1 (strL "justtext")
    (by decide) (by decide) (by decide) (by decide)

/-- Claim C5 (amended): a trimmed value that begins with a double quote but
is not terminated by a closing double quote is kept verbatim with no error;
a properly quoted value with escaped quotes unquotes to the unescaped text;
and a value that both begins and ends with a double quote but has a
malformed body aborts the parse with an error wrapping the unquote syntax
failure (not the InvalidValue sentinel). -/
theorem quoted_value_behavior :
    (∀ v : Str, v.head? = some '"' → (v.length < 2 ∨ v.getLast? ≠ some '"') →
        processQuotedValue v = .ok v)
    ∧ processQuotedValue (strL "\"a \\\"quoted\\\" value\"") = .ok (strL "a \"quoted\" value")
    ∧ parseConfigReaderM [strL "[s]", strL "k = \"a\"b\""] emptyConfig (strL "f")
        = .error { op := strL "parse", key := strL "k", sect := [],
                   source := some (strL "f"), lineNo := some 2, base := .unquoteFailed } := by
  refine ⟨fun v hh hrest => ?_, by decide, by decide⟩
  unfold processQuotedValue
  rw [if_neg ?_]
  rintro ⟨hl, hh', hlast⟩
  rcases hrest with hlen | hlast'
  · omega
  · exact hlast' hlast

/-- Witness for C5: the unterminated value `"abc` is returned verbatim. -/
theorem quoted_value_behavior_witness :
    processQuotedValue (strL "\"abc") = .ok (strL "\"abc") :=
  quoted_value_behavior.1 (strL "\"abc") (by decide) (Or.inr (by decide))

/-- Counterexample for C5 as stated: parsing a line whose value is the
unterminated `"abc` succeeds (storing the value verbatim) instead of
failing with an InvalidValue error. -/
theorem unterminated_quote_counterexample :
    parseConfigReaderM [strL "[s]", strL "k = \"abc"] emptyConfig (strL "f")
      = .ok { sections := [(strL "s", [(strL "k", strL "\"abc")])], sources := [] } := by
  decide

/-- Claim C4 (amended): boolean conversion first trims surrounding
whitespace, then matches case-insensitively: trimmed-lowered
`true`/`yes`/`on`/`1` convert to true, `false`/`no`/`off`/`0` to false, the
exactly-empty string converts to true, and every other value fails with
InvalidValue. -/
theorem convertBool_characterization :
    (∀ v : Str, convertBool v = .ok true ↔
      (v = [] ∨ lowerStr (trimSpace v) = strL "true" ∨ lowerStr (trimSpace v) = strL "yes"
        ∨ lowerStr (trimSpace v) = strL "on" ∨ lowerStr (trimSpace v) = strL "1"))
    ∧ (∀ v : Str, convertBool v = .ok false ↔
      (v ≠ [] ∧ (lowerStr (trimSpace v) = strL "false" ∨ lowerStr (trimSpace v) = strL "no"
        ∨ lowerStr (trimSpace v) = strL "off" ∨ lowerStr (trimSpace v) = strL "0")))
    ∧ (∀ v : Str, convertBool v = .error .invalidValue ↔
      (v ≠ [] ∧
        ¬(lowerStr (trimSpace v) = strL "true" ∨ lowerStr (trimSpace v) = strL "yes"
          ∨ lowerStr (trimSpace v) = strL "on" ∨ lowerStr (trimSpace v) = strL "1"
          ∨ lowerStr (trimSpace v) = strL "false" ∨ lowerStr (trimSpace v) = strL "no"
          ∨ lowerStr (trimSpace v) = strL "off" ∨ lowerStr (trimSpace v) = strL "0")))
    ∧ convertBool (strL "TRUE") = .ok true
    ∧ convertBool (strL "maybe") = .error .invalidValue := by
  refine ⟨fun v => ?_, fun v => ?_, fun v => ?_, by decide, by decide⟩
  all_goals
    simp only [convertBool, parseBool]
    split_ifs with h1 h2 h3 <;> simp_all <;>
      first
        | tauto
        | (rcases h2 with h | h | h | h <;>
            exact ⟨fun hb => absurd (h.symm.trans hb) (by decide),
                   fun hb => absurd (h.symm.trans hb) (by decide),
                   fun hb => absurd (h.symm.trans hb) (by decide),
                   fun hb => absurd (h.symm.trans hb) (by decide)⟩)

/-- Witness for C4: a case variant of a listed literal converts to true. -/
theorem convertBool_characterization_witness :
    convertBool (strL "YES") = .ok true :=
  (convertBool_characterization.1 (strL "YES")).mpr (by decide)

/-- Counterexample for C4 as stated: the whitespace-padded literal
`" true "` is neither empty nor (case-insensitively) among the listed
literals, yet conversion returns true instead of failing with
InvalidValue. -/
theorem convertBool_whitespace_counterexample :
    convertBool (strL " true ") = .ok true
    ∧ strL " true " ≠ []
    ∧ lowerStr (strL " true ") ≠ strL "true" ∧ lowerStr (strL " true ") ≠ strL "yes"
    ∧ lowerStr (strL " true ") ≠ strL "on" ∧ lowerStr (strL " true ") ≠ strL "1"
    ∧ lowerStr (strL " true ") ≠ strL "false" ∧ lowerStr (strL " true ") ≠ strL "no"
    ∧ lowerStr (strL " true ") ≠ strL "off" ∧ lowerStr (strL " true ") ≠ strL "0" := by
  decide

/-- The input of the subsection example: a `[remote "origin"]` header
followed by `url` and `fetch` assignments. -/
def linesC6 : List Str :=
  [strL "[remote \"origin\"]",
   strL "url = https://x",
   strL "fetch = +refs/heads/*:refs/remotes/origin/*"]

/-- The configuration produced by parsing the subsection example. -/
def cfgC6 : Config :=
  match parseConfigReaderM linesC6 emptyConfig (strL "test") with
  | .ok c => c
  | .error _ => emptyConfig

/-- Claim C6: parsing a `[remote "origin"]` header followed by `url` and
`fetch` lines stores both entries under the section name `remote.origin`
(quotes stripped, joined with dots), and `Get[string]` on
`remote.origin.url` returns `https://x`. -/
theorem subsection_composition :
    parseConfigReaderM linesC6 emptyConfig (strL "test") = .ok cfgC6
    ∧ lookupA cfgC6.sections (strL "remote.origin") =
        some [(strL "url", strL "https://x"),
              (strL "fetch", strL "+refs/heads/*:refs/remotes/origin/*")]
    ∧ getString cfgC6 (strL "remote.origin.url") = .ok (strL "https://x") := by
  refine ⟨rfl, by decide, by decide⟩

/-- The input of the `Has` example: a dotted section produced by an
`[a "b"]` header with a single key `c`. -/
def linesC10 : List Str := [strL "[a \"b\"]", strL "c = v"]

/-- The configuration produced by parsing the `Has` example. -/
def cfgC10 : Config :=
  match parseConfigReaderM linesC10 emptyConfig (strL "test") with
  | .ok c => c
  | .error _ => emptyConfig

/-- Claim C10: `Has` splits its argument only at the first dot (section =
first segment, key = entire remainder) and never peels an extra subsection
level; it answers true exactly when the first-segment section contains the
full remainder as a key.  Hence on a store holding section `a.b` with key
`c`, `Has "a.b.c"` is false even though `Get[string] "a.b.c"` succeeds. -/
theorem has_splits_first_dot_only :
    (∀ (c : Config) (sec rest : Str), containsC '.' sec = false →
      hasKey c (sec ++ '.' :: rest) =
        ((lookupA c.sections sec).bind fun m => lookupA m rest).isSome)
    ∧ (∀ (c : Config) (key : Str), containsC '.' key = false → hasKey c key = false)
    ∧ hasKey cfgC10 (strL "a.b.c") = false
    ∧ getString cfgC10 (strL "a.b.c") = .ok (strL "v") := by
  refine ⟨fun c sec rest h => ?_, fun c key h => ?_, by decide, by decide⟩
  · unfold hasKey
    rw [splitFirst_append _ _ _ h]
    cases hm : lookupA c.sections sec <;> simp [hm]
  · unfold hasKey
    rw [(splitFirst_eq_none_iff '.' key).mpr h]

/-- Witness for C10: the first-dot split applied to the concrete store. -/
theorem has_splits_first_dot_only_witness :
    hasKey cfgC10 (strL "a" ++ '.' :: strL "b.c") =
      ((lookupA cfgC10.sections (strL "a")).bind fun m => lookupA m (strL "b.c")).isSome :=
  has_splits_first_dot_only.1 cfgC10 (strL "a") (strL "b.c") (by decide)

/-- Claim C7: for every store and every dotted key accepted by
decomposition, the typed accessor returns an error wrapping SectionNotFound
exactly when the decomposed section is absent, and an error wrapping
KeyNotFound exactly when the section exists but the decomposed key is
absent within it, for every conversion function. -/
theorem get_error_kinds (α : Type) (conv : Str → Except ErrBase α) (c : Config)
    (key sec sub : Str) (h : parseConfigKey key = some (sec, sub)) :
    (getValue conv c key = .error (.sectionNotFound sec sub) ↔
      lookupA c.sections sec = none)
    ∧ (getValue conv c key = .error (.keyNotFound sec sub) ↔
      ∃ m, lookupA c.sections sec = some m ∧ lookupA m sub = none) := by
  unfold getValue
  rw [h]
  cases hm : lookupA c.sections sec with
  | none => simp [hm]
  | some m =>
    cases hv : lookupA m sub with
    | none => simp [hm, hv]
    | some v =>
      cases hc : conv v with
      | error e => simp [hm, hv, hc]
      | ok a => simp [hm, hv, hc]

/-- Witness for C7: a missing section is reported as SectionNotFound. -/
theorem get_error_kinds_witness :
    getString cfgC10 (strL "missing.key")
      = .error (.sectionNotFound (strL "missing") (strL "key")) :=
  ((get_error_kinds Str (fun v => .ok v) cfgC10 (strL "missing.key")
      (strL "missing") (strL "key") (by decide)).1).mpr (by decide)

/-- Folding the last-match accumulator from an arbitrary seed factors
through `lastValueFor`. -/
theorem lastValueFor_fold_init (writes : List (Str × Str)) (k : Str) (a : Option Str) :
    writes.foldl
        (fun acc w => if parseConfigKey w.1 = parseConfigKey k then some w.2 else acc) a
      = (lastValueFor writes k).or a := by
  induction writes generalizing a with
  | nil => simp [lastValueFor, Option.or]
  | cons w t ih =>
    have hcons : lastValueFor (w :: t) k
        = List.foldl
            (fun acc w => if parseConfigKey w.1 = parseConfigKey k then some w.2 else acc)
            (if parseConfigKey w.1 = parseConfigKey k then some w.2 else none) t := by
      simp [lastValueFor]
    rw [List.foldl_cons, ih, hcons, ih]
    by_cases hc : parseConfigKey w.1 = parseConfigKey k <;>
      cases hl : lastValueFor t k <;> simp [hc, hl, Option.or]

/-- The file system of the two-source merge example: source `a` sets
`core.editor = vim`, source `b` sets `core.editor = emacs`. -/
def fsAB : FS := fun p =>
  if p = strL "a" then some [strL "[core]", strL "editor = vim"]
  else if p = strL "b" then some [strL "[core]", strL "editor = emacs"]
  else none

/-- A context that never fires. -/
def ctxNever : Nat → Bool := fun _ => false

/-- The first source of the merge example. -/
def srcA : ConfigSource := { type := .global, path := strL "a" }

/-- The second source of the merge example. -/
def srcB : ConfigSource := { type := .local, path := strL "b" }

/-- The store produced by loading `[A, B]`. -/
def cfgAB : Config :=
  match parseFromFilesM fsAB ctxNever [srcA, srcB] with
  | .ok c => c
  | .error _ => emptyConfig

/-- The store produced by loading `[B, A]`. -/
def cfgBA : Config :=
  match parseFromFilesM fsAB ctxNever [srcB, srcA] with
  | .ok c => c
  | .error _ => emptyConfig

/-- Claim C1: over any successful sequence of writes the merged store maps a
composed dotted key to the value of the last write decomposing to the same
slot (later source, or later line within the same source, wins); in
particular loading `[A, B]` where both define `core.editor` yields B's value
and loading `[B, A]` yields A's value. -/
theorem last_write_wins :
    (∀ (c : Config) (writes : List (Str × Str)) (c' : Config),
        applyWritesE c writes = .ok c' →
        ∀ k : Str, rawLookup c' k = (lastValueFor writes k).or (rawLookup c k))
    ∧ parseFromFilesM fsAB ctxNever [srcA, srcB] = .ok cfgAB
    ∧ getString cfgAB (strL "core.editor") = .ok (strL "emacs")
    ∧ parseFromFilesM fsAB ctxNever [srcB, srcA] = .ok cfgBA
    ∧ getString cfgBA (strL "core.editor") = .ok (strL "vim") := by
  refine ⟨fun c writes => ?_, by decide, by decide, by decide, by decide⟩
  induction writes generalizing c with
  | nil =>
    intro c' h k
    cases h
    simp [lastValueFor, Option.or]
  | cons w t ih =>
    obtain ⟨wk, wv⟩ := w
    intro c' h k
    unfold applyWritesE at h
    cases hset : setRawValue c wk wv with
    | error e => rw [hset] at h; cases h
    | ok c1 =>
      rw [hset] at h
      rw [ih c1 c' h k, setRawValue_ok_rawLookup c wk wv c1 hset k]
      have hcons : lastValueFor ((wk, wv) :: t) k
          = (lastValueFor t k).or
              (if parseConfigKey wk = parseConfigKey k then some wv else none) := by
        have := lastValueFor_fold_init t k
          (if parseConfigKey wk = parseConfigKey k then some wv else none)
        simpa [lastValueFor] using this
      rw [hcons]
      by_cases hc : parseConfigKey wk = parseConfigKey k
      · rw [if_pos hc.symm, if_pos hc]
        cases hl : lastValueFor t k <;> simp [hl, Option.or]
      · rw [if_neg (fun hh => hc hh.symm), if_neg hc]
        cases hl : lastValueFor t k <;> simp [hl, Option.or]

/-- The write sequence of the C1 witness. -/
def writesW : List (Str × Str) :=
  [(strL "core.editor", strL "vim"), (strL "core.editor", strL "emacs")]

/-- The store produced by replaying the C1 witness writes. -/
def cfgW : Config :=
  match applyWritesE emptyConfig writesW with
  | .ok c => c
  | .error _ => emptyConfig

/-- Witness for C1: the general last-write-wins law applied to a concrete
pair of writes to the same key. -/
theorem last_write_wins_witness :
    rawLookup cfgW (strL "core.editor")
      = (lastValueFor writesW (strL "core.editor")).or
          (rawLookup emptyConfig (strL "core.editor")) :=
  last_write_wins.1 emptyConfig writesW cfgW (by decide) (strL "core.editor")

/-- A successful `setRawValue` preserves the store validation invariant:
the new entry was validated by the guards before insertion. -/
theorem validStore_setRawValue (c : Config) (k v : Str) (c' : Config)
    (h : setRawValue c k v = .ok c') (hc : validStore c.sections) :
    validStore c'.sections := by
  unfold setRawValue at h
  split at h
  · cases h
  · split at h
    · cases h
    · rename_i sec remaining hpk
      split at h
      · cases h
      · split at h
        · cases h
        · rename_i hsecB hkeyB
          cases h
          intro p hp
          rcases mem_insertA _ _ _ _ hp with hmem | hnew
          · exact hc p hmem
          · subst hnew
            refine ⟨?_, ?_⟩
            · revert hsecB
              cases hA : isValidSectionName sec <;>
                cases hB : isValidSubsectionName sec <;> simp
            · intro q hq
              rcases mem_insertA _ _ _ _ hq with hqmem | hqnew
              · cases hl : lookupA c.sections sec with
                | none => rw [hl] at hqmem; cases hqmem
                | some m1 =>
                  rw [hl] at hqmem
                  exact (hc (sec, m1) (lookupA_mem _ _ _ hl)).2 q hqmem
              · subst hqnew
                simpa using hkeyB

/-- A successful `processLine` preserves the store validation invariant. -/
theorem validStore_processLine (c : Config) (cur src : Str) (ln : Nat) (line : Str)
    (c' : Config) (cur' : Str) (h : processLine c cur src ln line = .ok (c', cur'))
    (hc : validStore c.sections) : validStore c'.sections := by
  unfold processLine at h
  split at h
  · cases h; exact hc
  · split at h
    · cases h; exact hc
    · split at h
      · cases h; exact hc
      · dsimp only [] at h
        split at h
        · cases h
        · split at h
          · cases h
          · rename_i hset
            cases h
            exact validStore_setRawValue _ _ _ _ hset hc

/-- The scanner loop preserves the store validation invariant. -/
theorem validStore_parseLinesLoop (src : Str) (lines : List Str) :
    ∀ (c : Config) (cur : Str) (ln : Nat) (c' : Config),
      parseLinesLoop src lines c cur ln = .ok c' →
      validStore c.sections → validStore c'.sections := by
  induction lines with
  | nil => intro c cur ln c' h hc; cases h; exact hc
  | cons line rest ih =>
    intro c cur ln c' h hc
    unfold parseLinesLoop at h
    cases hp : processLine c cur src (ln + 1) line with
    | error e => rw [hp] at h; cases h
    | ok p =>
      obtain ⟨c1, cur1⟩ := p
      rw [hp] at h
      exact ih c1 cur1 (ln + 1) c' h (validStore_processLine _ _ _ _ _ _ _ hp hc)

/-- Opening and parsing one source file preserves the invariant. -/
theorem validStore_parseConfigFileM (fs : FS) (path : Str) (c c' : Config)
    (h : parseConfigFileM fs path c = .ok c') (hc : validStore c.sections) :
    validStore c'.sections := by
  unfold parseConfigFileM at h
  cases hf : fs path with
  | none => rw [hf] at h; cases h
  | some lines =>
    rw [hf] at h
    exact validStore_parseLinesLoop path lines c [] 0 c' h hc

/-- The per-source load loop preserves the invariant. -/
theorem validStore_loadLoop (fs : FS) (ctx : Nat → Bool) (srcs : List ConfigSource) :
    ∀ (i : Nat) (acc c' : Config),
      loadLoop fs ctx srcs i acc = .ok c' →
      validStore acc.sections → validStore c'.sections := by
  induction srcs with
  | nil => intro i acc c' h hc; cases h; exact hc
  | cons s rest ih =>
    intro i acc c' h hc
    unfold loadLoop at h
    split at h
    · cases h
    · cases hp : parseConfigFileM fs s.path acc with
      | error e => rw [hp] at h; cases h
      | ok acc1 =>
        rw [hp] at h
        refine ih _ _ _ h ?_
        exact validStore_parseConfigFileM fs s.path acc acc1 hp hc

/-- Claim C8: after any sequence of store operations (setRawValue calls,
parsing a reader, building from sources, reloads) every section name
present in the store passes section-name or dotted-subsection validation
and every key present passes key-name validation; the store never contains
an entry for a key that failed validation. -/
theorem store_validation_invariant :
    (∀ (c : Config) (k v : Str) (c' : Config),
        setRawValue c k v = .ok c' → validStore c.sections → validStore c'.sections)
    ∧ (∀ (lines : List Str) (c : Config) (src : Str) (c' : Config),
        parseConfigReaderM lines c src = .ok c' →
        validStore c.sections → validStore c'.sections)
    ∧ (∀ (fs : FS) (ctx : Nat → Bool) (srcs : List ConfigSource) (c' : Config),
        parseFromFilesM fs ctx srcs = .ok c' → validStore c'.sections)
    ∧ (∀ (c : Config) (fs : FS) (ctx : Nat → Bool) (c' : Config) (e : Option ReloadErr),
        reloadWithContext c fs ctx = (c', e) →
        validStore c.sections → validStore c'.sections) := by
  have hempty : validStore emptyConfig.sections := by
    intro p hp; cases hp
  refine ⟨validStore_setRawValue,
          fun lines c src c' h hc => validStore_parseLinesLoop src lines c [] 0 c' h hc,
          fun fs ctx srcs c' h => validStore_loadLoop fs ctx srcs 0 emptyConfig c' h hempty,
          fun c fs ctx c' e h hc => ?_⟩
  unfold reloadWithContext at h
  split at h
  · cases h; exact hc
  · cases hl : loadLoop fs ctx c.sources 0 emptyConfig with
    | ok nc =>
      rw [hl] at h
      cases h
      exact validStore_loadLoop fs ctx c.sources 0 emptyConfig nc hl hempty
    | error e0 =>
      rw [hl] at h
      cases h
      exact hc

/-- Witness for C8: the store parsed from the subsection example satisfies
the validation invariant. -/
theorem store_validation_invariant_witness : validStore cfgC6.sections :=
  store_validation_invariant.2.1 linesC6 emptyConfig (strL "test") cfgC6 rfl
    (by intro p hp; cases hp)

/-- A failing load loop either reports cancellation or wraps the path of
one of the sources it was given. -/
theorem loadLoop_error_source (fs : FS) (ctx : Nat → Bool) (srcs : List ConfigSource) :
    ∀ (i : Nat) (acc : Config) (e : ReloadErr),
      loadLoop fs ctx srcs i acc = .error e →
      e = .ctxCanceled ∨
        ∃ p err, e = .sourceFailed p err ∧ p ∈ srcs.map ConfigSource.path := by
  induction srcs with
  | nil => intro i acc e h; cases h
  | cons s rest ih =>
    intro i acc e h
    unfold loadLoop at h
    split at h
    · cases h
      left
      rfl
    · cases hp : parseConfigFileM fs s.path acc with
      | error err =>
        rw [hp] at h
        cases h
        right
        exact ⟨s.path, err, rfl, by simp⟩
      | ok acc1 =>
        rw [hp] at h
        rcases ih _ _ _ h with h1 | ⟨p, err, he, hmem⟩
        · left; exact h1
        · right
          exact ⟨p, err, he, by simp [hmem]⟩

/-- Claim C2 (amended): for every config with at least one recorded source,
a failing `ReloadWithContext` (source fails to open, a line fails
validation, or the context is cancelled) leaves the sections map and the
source list exactly as they were, and the returned error either is the
context's own cancellation error (which names no source) or wraps the path
of one of the recorded sources. -/
theorem reload_failure_preserves_store (c : Config) (fs : FS) (ctx : Nat → Bool)
    (hs : c.sources ≠ []) (c' : Config) (e : ReloadErr)
    (h : reloadWithContext c fs ctx = (c', some e)) :
    c' = c ∧
      (e = .ctxCanceled ∨
        ∃ p err, e = .sourceFailed p err ∧ p ∈ c.sources.map ConfigSource.path) := by
  unfold reloadWithContext at h
  rw [if_neg hs] at h
  cases hl : loadLoop fs ctx c.sources 0 emptyConfig with
  | ok nc =>
    rw [hl] at h
    simp at h
  | error e0 =>
    rw [hl] at h
    injection h with hA hB
    injection hB with hB'
    subst hB'
    exact ⟨hA.symm, loadLoop_error_source fs ctx c.sources 0 emptyConfig e0 hl⟩

/-- The config of the reload examples: one recorded source `g`. -/
def cC2 : Config :=
  { sections := [(strL "core", [(strL "editor", strL "vim")])],
    sources := [{ type := .global, path := strL "g" }] }

/-- The open-failure error for the missing source `g`. -/
def errOpenG : CfgError :=
  { op := strL "parse", key := [], sect := [], source := some (strL "g"),
    lineNo := none, base := .openFailed }

/-- Witness for C2: reloading against a file system where the recorded
source is missing leaves the config untouched and wraps the source path. -/
theorem reload_failure_preserves_store_witness :
    cC2 = cC2 ∧
      (ReloadErr.sourceFailed (strL "g") errOpenG = .ctxCanceled ∨
        ∃ p err, ReloadErr.sourceFailed (strL "g") errOpenG = .sourceFailed p err
          ∧ p ∈ cC2.sources.map ConfigSource.path) :=
  reload_failure_preserves_store cC2 (fun _ => none) (fun _ => false)
    (by decide) cC2 (.sourceFailed (strL "g") errOpenG) (by decide)

/-- Counterexample for C2 as stated: when the reload fails because the
context is cancelled, the store is preserved but the returned error is the
context's own error, which names no source at all (the claim demands an
error naming the failing source on every failure). -/
theorem reload_cancellation_counterexample :
    reloadWithContext cC2 (fun _ => none) (fun _ => true) = (cC2, some .ctxCanceled)
    ∧ namedSource ReloadErr.ctxCanceled = none
    ∧ cC2.sources.map ConfigSource.path = [strL "g"] := by
  decide

end GitCfg
